import Mathlib

/-!
Verification of the smart-bookmark-manager repository: a shallow embedding of
the bookmark server handlers (src/supabase/functions/server/index.tsx) and of
the client realtime event application (src/src/app/App.tsx), with theorems
settling the frozen specification claims.
-/

namespace BookmarkServer

/-- A bookmark record, as built by the POST /bookmarks handler. -/
structure Bookmark where
  id : String
  url : String
  title : String
  userId : String
  createdAt : String
deriving Repr, DecidableEq

/-- The key-value store state: an association list of key/record pairs. -/
abbrev KV := List (String × Bookmark)

/-- Boolean test that the characters of `p` come first in `s`
("key starts with the given text"). -/
def strStarts (p s : String) : Bool := List.isPrefixOf p.data s.data

/-- Modelled from the spec: kv_store.tsx is not under src/; section 4.1 gives
its contract. `set(key, value)` upserts a JSON value under an exact key. -/
def kvSet (k : String) (v : Bookmark) (st : KV) : KV :=
  st.filter (fun p => p.1 != k) ++ [(k, v)]

/-- Modelled from the spec: kv_store.tsx is not under src/; section 4.1 gives
its contract. `get(key)` returns the value or a not-found result. -/
def kvGet (k : String) (st : KV) : Option Bookmark :=
  (st.find? (fun p => p.1 == k)).map (fun p => p.2)

/-- Modelled from the spec: kv_store.tsx is not under src/; section 4.1 gives
its contract. `del(key)` removes a key idempotently (no error if absent). -/
def kvDel (k : String) (st : KV) : KV :=
  st.filter (fun p => p.1 != k)

/-- Modelled from the spec: kv_store.tsx is not under src/; section 4.1 gives
its contract. `getByPrefix(prefix)` returns all key/value pairs whose key
starts with the given text, order unspecified. -/
def getByPre (pre : String) (st : KV) : KV :=
  st.filter (fun p => strStarts pre p.1)

/-- The key written by the create handler: `bookmarks:userId:bookmarkId`. -/
def bmKey (uid bid : String) : String := "bookmarks:" ++ uid ++ ":" ++ bid

/-- The scan key text used by the list handler: `bookmarks:userId:`. -/
def listPre (uid : String) : String := "bookmarks:" ++ uid ++ ":"

/-- JavaScript `s.split(sep)` over the character list: accumulates the current
chunk and cuts at each separator; the empty string yields one empty chunk. -/
def splitCharAux (sep : Char) : List Char → List Char → List String
  | [], cur => [String.mk cur.reverse]
  | c :: cs, cur =>
    if c = sep then String.mk cur.reverse :: splitCharAux sep cs []
    else splitCharAux sep cs (c :: cur)

/-- JavaScript `s.split(sep)` for a one-character separator. -/
def jsSplit (s : String) (sep : Char) : List String :=
  splitCharAux sep s.data []

/-- `c.req.header('Authorization')?.split(' ')[1]` followed by the falsiness
check `if (!accessToken)`: a missing header, a header with no second
space-separated chunk, or an empty second chunk, all yield no token. -/
def extractToken (header : Option String) : Option String :=
  match header with
  | none => none
  | some h =>
    match (jsSplit h ' ')[1]? with
    | none => none
    | some t => if t = "" then none else some t

/-- JavaScript truthiness of an optional string field: present and non-empty. -/
def truthy : Option String → Bool
  | none => false
  | some s => s != ""

/-- The JSON body a handler returns, one constructor per literal in the code. -/
inductive Body where
  | errNoToken
  | errUnauthorized
  | errRequired
  | bookmarkList (bs : List Bookmark)
  | bookmarkCreated (b : Bookmark)
  | deleteSuccess
deriving Repr, DecidableEq

/-- An HTTP response: status code and JSON body. -/
abbrev Response := Nat × Body

/-- GET /bookmarks: extract the bearer token, verify it against the identity
provider (`auth`), reject an absent or empty user id with 401, and otherwise
scan-read the caller's key range and return the values. -/
def getBookmarksHandler (auth : String → Option String) (header : Option String)
    (st : KV) : Response × KV :=
  match extractToken header with
  | none => ((401, Body.errNoToken), st)
  | some tok =>
    match auth tok with
    | none => ((401, Body.errUnauthorized), st)
    | some uid =>
      if uid = "" then ((401, Body.errUnauthorized), st)
      else ((200, Body.bookmarkList ((getByPre (listPre uid) st).map (fun p => p.2))), st)

/-- POST /bookmarks: after the same auth steps, destructure only `url` and
`title` from the body (`bodyId` and `bodyUserId` model any extra client-sent
fields, which the code never reads), reject falsy fields with 400, and
otherwise build the record from the verified user id, the generated id `fid`
and the current time `now`, store it under `bookmarks:userId:bookmarkId`, and
return it. -/
def createBookmarkHandler (auth : String → Option String) (header : Option String)
    (url? title? bodyId bodyUserId : Option String) (fid now : String)
    (st : KV) : Response × KV :=
  match extractToken header with
  | none => ((401, Body.errNoToken), st)
  | some tok =>
    match auth tok with
    | none => ((401, Body.errUnauthorized), st)
    | some uid =>
      if uid = "" then ((401, Body.errUnauthorized), st)
      else if truthy url? && truthy title? then
        let bm : Bookmark :=
          { id := fid, url := url?.getD "", title := title?.getD "",
            userId := uid, createdAt := now }
        ((200, Body.bookmarkCreated bm), kvSet (bmKey uid fid) bm st)
      else ((400, Body.errRequired), st)

/-- DELETE /bookmarks/:id: after the same auth steps, delete the key built
from the verified user id and the path parameter, unconditionally. -/
def deleteBookmarkHandler (auth : String → Option String) (header : Option String)
    (bid : String) (st : KV) : Response × KV :=
  match extractToken header with
  | none => ((401, Body.errNoToken), st)
  | some tok =>
    match auth tok with
    | none => ((401, Body.errUnauthorized), st)
    | some uid =>
      if uid = "" then ((401, Body.errUnauthorized), st)
      else ((200, Body.deleteSuccess), kvDel (bmKey uid bid) st)

/-- One server-side mutation request in a trace: a create (with the id and
timestamp the server generates for it) or a delete, each issued by a user. -/
inductive Op where
  | create (uid url title fid now : String)
  | delete (uid bid : String)
deriving Repr, DecidableEq

/-- The issuing user of an operation. -/
def Op.uid : Op → String
  | .create u _ _ _ _ => u
  | .delete u _ => u

/-- A well-formed operation: non-empty user id, and for a create non-empty
url and title (so the handler neither 401s nor 400s it). -/
def wfOp : Op → Bool
  | .create u url title _ _ => u != "" && url != "" && title != ""
  | .delete u _ => u != ""

/-- The user id contains no ':' separator character. -/
def colonFree (s : String) : Bool := s.data.all (fun c => c != ':')

/-- An identity provider that verifies the fixed token "tok" as user `uid`. -/
def authOf (uid : String) : String → Option String :=
  fun t => if t = "tok" then some uid else none

/-- Run one operation through the corresponding handler, authenticated as the
operation's user, and keep the resulting store. -/
def applyOp (op : Op) (st : KV) : KV :=
  match op with
  | .create uid url title fid now =>
    (createBookmarkHandler (authOf uid) (some "Bearer tok")
      (some url) (some title) none none fid now st).2
  | .delete uid bid =>
    (deleteBookmarkHandler (authOf uid) (some "Bearer tok") bid st).2

/-- Run a trace of operations through the handlers, left to right. -/
def runOps : List Op → KV → KV
  | [], st => st
  | op :: rest, st => runOps rest (applyOp op st)

/-- One step of the spec-side ledger for user `A`: what "the set of bookmarks
previously created (and not deleted) by that caller" becomes after an
operation. A create by `A` replaces any record with the same id and adds the
new record; a delete by `A` removes the id; other users' operations leave it
unchanged. -/
def ledgerStep (A : String) (acc : List Bookmark) : Op → List Bookmark
  | .create u url title fid now =>
    if u = A then acc.filter (fun b => b.id != fid) ++ [⟨fid, url, title, u, now⟩]
    else acc
  | .delete u bid =>
    if u = A then acc.filter (fun b => b.id != bid) else acc

/-- The spec-side ledger for user `A` over a whole trace. -/
def ledgerRun (A : String) : List Op → List Bookmark → List Bookmark
  | [], acc => acc
  | op :: rest, acc => ledgerRun A rest (ledgerStep A acc op)

/-- The key/record pairs of user `A`'s storage range, tracked step by step. -/
def pStep (A : String) (acc : KV) : Op → KV
  | .create u url title fid now =>
    if u = A then
      acc.filter (fun p => p.1 != bmKey A fid) ++ [(bmKey A fid, ⟨fid, url, title, u, now⟩)]
    else acc
  | .delete u bid =>
    if u = A then acc.filter (fun p => p.1 != bmKey A bid) else acc

/-- The key/record pairs of user `A`'s storage range over a whole trace. -/
def pRun (A : String) : List Op → KV → KV
  | [], acc => acc
  | op :: rest, acc => pRun A rest (pStep A acc op)

/-- The records of a list of key/record pairs. -/
def sndList (st : KV) : List Bookmark := st.map (fun p => p.2)

theorem colonFree_notMem {s : String} (h : colonFree s = true) : ':' ∉ s.data := by
  intro hmem
  have := (List.all_eq_true.mp h) ':' hmem
  simp at this

/-- Two colon-free words followed by a ':' separator: if the words differ, the
first word with its separator never starts the second word's separated form. -/
theorem colon_sep_no_pre (xs : List Char) : ∀ (ys zs : List Char),
    ':' ∉ xs → ':' ∉ ys → xs ≠ ys → ¬ ((xs ++ [':']) <+: (ys ++ ':' :: zs)) := by
  induction xs with
  | nil =>
    intro ys zs _ hy hne hp
    cases ys with
    | nil => exact hne rfl
    | cons y ys' =>
      rw [List.nil_append, List.cons_append, List.cons_prefix_cons] at hp
      exact hy (by rw [hp.1]; exact List.mem_cons_self _ _)
  | cons x xs' ih =>
    intro ys zs hx hy hne hp
    cases ys with
    | nil =>
      rw [List.cons_append, List.nil_append, List.cons_prefix_cons] at hp
      exact hx (by rw [← hp.1]; exact List.mem_cons_self _ _)
    | cons y ys' =>
      rw [List.cons_append, List.cons_append, List.cons_prefix_cons] at hp
      refine ih ys' zs (fun h => hx (List.mem_cons_of_mem _ h))
        (fun h => hy (List.mem_cons_of_mem _ h)) (fun h => hne ?_) hp.2
      rw [hp.1, h]

theorem strStarts_iff (p s : String) : strStarts p s = true ↔ p.data <+: s.data := by
  simp [strStarts]

theorem bmKey_data (uid bid : String) :
    (bmKey uid bid).data = "bookmarks:".data ++ (uid.data ++ (':' :: bid.data)) := by
  simp [bmKey]

theorem listPre_data (uid : String) :
    (listPre uid).data = "bookmarks:".data ++ (uid.data ++ [':']) := by
  simp [listPre]

theorem strStarts_listPre_bmKey_self (A i : String) :
    strStarts (listPre A) (bmKey A i) = true := by
  rw [strStarts_iff, listPre_data, bmKey_data,
    List.prefix_append_right_inj, List.prefix_append_right_inj]
  exact ⟨i.data, rfl⟩

theorem strStarts_listPre_bmKey_ne (A u : String) (i : String)
    (hA : colonFree A = true) (hu : colonFree u = true) (hne : A ≠ u) :
    strStarts (listPre A) (bmKey u i) = false := by
  have hdne : A.data ≠ u.data := fun h => hne (String.ext h)
  have hnp : ¬ ((listPre A).data <+: (bmKey u i).data) := by
    rw [listPre_data, bmKey_data, List.prefix_append_right_inj]
    exact colon_sep_no_pre A.data u.data i.data
      (colonFree_notMem hA) (colonFree_notMem hu) hdne
  cases h : strStarts (listPre A) (bmKey u i) with
  | false => rfl
  | true => exact absurd ((strStarts_iff _ _).mp h) hnp

theorem bmKey_inj (A : String) {x y : String} (h : bmKey A x = bmKey A y) : x = y := by
  have hd : (bmKey A x).data = (bmKey A y).data := by rw [h]
  rw [bmKey_data, bmKey_data] at hd
  have h1 := List.append_cancel_left hd
  have h2 := List.append_cancel_left h1
  exact String.ext (List.cons.inj h2).2

theorem filter_swap {α : Type} (p q : α → Bool) (l : List α) :
    (l.filter p).filter q = (l.filter q).filter p := by
  rw [List.filter_filter, List.filter_filter]
  refine List.filter_congr ?_
  intro a _
  exact Bool.and_comm _ _

theorem getByPre_kvSet_own (A fid : String) (bm : Bookmark) (st : KV) :
    getByPre (listPre A) (kvSet (bmKey A fid) bm st)
      = (getByPre (listPre A) st).filter (fun p => p.1 != bmKey A fid)
          ++ [(bmKey A fid, bm)] := by
  unfold getByPre kvSet
  rw [List.filter_append, filter_swap]
  simp [strStarts_listPre_bmKey_self]

theorem getByPre_kvSet_other (A u fid : String) (hA : colonFree A = true)
    (hu : colonFree u = true) (hne : A ≠ u) (bm : Bookmark) (st : KV) :
    getByPre (listPre A) (kvSet (bmKey u fid) bm st) = getByPre (listPre A) st := by
  unfold getByPre kvSet
  have hk : strStarts (listPre A) (bmKey u fid) = false :=
    strStarts_listPre_bmKey_ne A u fid hA hu hne
  rw [List.filter_append, filter_swap]
  simp only [List.filter_cons, hk, Bool.false_eq_true, if_false, List.filter_nil,
    List.append_nil]
  refine List.filter_eq_self.mpr ?_
  intro a ha
  have hpa := (List.mem_filter.mp ha).2
  simp only [bne_iff_ne, ne_eq]
  intro h
  rw [h, hk] at hpa
  exact Bool.false_ne_true hpa

theorem getByPre_kvDel_own (A bid : String) (st : KV) :
    getByPre (listPre A) (kvDel (bmKey A bid) st)
      = (getByPre (listPre A) st).filter (fun p => p.1 != bmKey A bid) := by
  unfold getByPre kvDel
  rw [filter_swap]

theorem getByPre_kvDel_other (A u bid : String) (hA : colonFree A = true)
    (hu : colonFree u = true) (hne : A ≠ u) (st : KV) :
    getByPre (listPre A) (kvDel (bmKey u bid) st) = getByPre (listPre A) st := by
  unfold getByPre kvDel
  have hk : strStarts (listPre A) (bmKey u bid) = false :=
    strStarts_listPre_bmKey_ne A u bid hA hu hne
  rw [filter_swap]
  refine List.filter_eq_self.mpr ?_
  intro a ha
  have hpa := (List.mem_filter.mp ha).2
  simp only [bne_iff_ne, ne_eq]
  intro h
  rw [h, hk] at hpa
  exact Bool.false_ne_true hpa

theorem extractToken_bearer : extractToken (some "Bearer tok") = some "tok" := by
  decide

theorem applyOp_create_eq (u url title fid now : String) (hu : u ≠ "")
    (hurl : url ≠ "") (htitle : title ≠ "") (st : KV) :
    applyOp (Op.create u url title fid now) st
      = kvSet (bmKey u fid) ⟨fid, url, title, u, now⟩ st := by
  simp [applyOp, createBookmarkHandler, authOf, extractToken_bearer, truthy,
    hu, hurl, htitle]

theorem applyOp_create_noop (u url title fid now : String)
    (h : u = "" ∨ url = "" ∨ title = "") (st : KV) :
    applyOp (Op.create u url title fid now) st = st := by
  rcases h with h | h | h <;>
    simp [applyOp, createBookmarkHandler, authOf, extractToken_bearer, truthy, h] <;>
    split <;> rfl

theorem applyOp_delete_eq (u bid : String) (hu : u ≠ "") (st : KV) :
    applyOp (Op.delete u bid) st = kvDel (bmKey u bid) st := by
  simp [applyOp, deleteBookmarkHandler, authOf, extractToken_bearer, hu]

theorem applyOp_delete_noop (u bid : String) (hu : u = "") (st : KV) :
    applyOp (Op.delete u bid) st = st := by
  simp [applyOp, deleteBookmarkHandler, authOf, extractToken_bearer, hu]

theorem runOps_view (A : String) (hA : colonFree A = true) :
    ∀ (ops : List Op), (∀ op ∈ ops, wfOp op = true ∧ colonFree (Op.uid op) = true) →
    ∀ st : KV, getByPre (listPre A) (runOps ops st) = pRun A ops (getByPre (listPre A) st) := by
  intro ops
  induction ops with
  | nil => intro _ st; rfl
  | cons op rest ih =>
    intro hops st
    have hop := hops op (List.mem_cons_self _ _)
    have hrest : ∀ o ∈ rest, wfOp o = true ∧ colonFree (Op.uid o) = true :=
      fun o ho => hops o (List.mem_cons_of_mem _ ho)
    show getByPre (listPre A) (runOps rest (applyOp op st))
      = pRun A rest (pStep A (getByPre (listPre A) st) op)
    rw [ih hrest (applyOp op st)]
    congr 1
    cases op with
    | create u url title fid now =>
      obtain ⟨hwf, hcf⟩ := hop
      simp only [wfOp, Bool.and_eq_true, bne_iff_ne, ne_eq] at hwf
      obtain ⟨⟨hu, hurl⟩, htitle⟩ := hwf
      have hcf' : colonFree u = true := hcf
      rw [applyOp_create_eq u url title fid now hu hurl htitle]
      by_cases h : u = A
      · subst h
        rw [getByPre_kvSet_own]
        simp [pStep]
      · rw [getByPre_kvSet_other A u fid hA hcf' (fun he => h he.symm)]
        simp [pStep, h]
    | delete u bid =>
      obtain ⟨hwf, hcf⟩ := hop
      simp only [wfOp, bne_iff_ne, ne_eq] at hwf
      have hcf' : colonFree u = true := hcf
      rw [applyOp_delete_eq u bid hwf]
      by_cases h : u = A
      · subst h
        rw [getByPre_kvDel_own]
        simp [pStep]
      · rw [getByPre_kvDel_other A u bid hA hcf' (fun he => h he.symm)]
        simp [pStep, h]

theorem pStep_key_inv (A : String) (op : Op) (acc : KV)
    (hinv : ∀ p ∈ acc, p.1 = bmKey A p.2.id) :
    ∀ p ∈ pStep A acc op, p.1 = bmKey A p.2.id := by
  intro p hp
  cases op with
  | create u url title fid now =>
    simp only [pStep] at hp
    by_cases h : u = A
    · rw [if_pos h] at hp
      rcases List.mem_append.mp hp with hp1 | hp1
      · exact hinv p (List.mem_filter.mp hp1).1
      · rw [List.mem_singleton] at hp1; subst hp1; rfl
    · rw [if_neg h] at hp; exact hinv p hp
  | delete u bid =>
    simp only [pStep] at hp
    by_cases h : u = A
    · rw [if_pos h] at hp; exact hinv p (List.mem_filter.mp hp).1
    · rw [if_neg h] at hp; exact hinv p hp

theorem map_snd_filter_key (A fid : String) (acc : KV)
    (hinv : ∀ p ∈ acc, p.1 = bmKey A p.2.id) :
    sndList (acc.filter (fun p => p.1 != bmKey A fid))
      = (sndList acc).filter (fun b => b.id != fid) := by
  induction acc with
  | nil => rfl
  | cons q rest ih =>
    have hq := hinv q (List.mem_cons_self _ _)
    have hrest : ∀ p ∈ rest, p.1 = bmKey A p.2.id :=
      fun p hp => hinv p (List.mem_cons_of_mem _ hp)
    have hcond : (q.1 != bmKey A fid) = (q.2.id != fid) := by
      rw [hq]
      by_cases h : q.2.id = fid
      · rw [h]; simp
      · have h1 : bmKey A q.2.id ≠ bmKey A fid := fun hk => h (bmKey_inj A hk)
        rw [bne_iff_ne.mpr h1, bne_iff_ne.mpr h]
    have ih' := ih hrest
    simp only [sndList, List.map_cons, List.filter_cons, hcond] at ih' ⊢
    split
    · simp only [List.map_cons]
      rw [ih']
    · exact ih'

theorem pRun_sndList (A : String) : ∀ (ops : List Op) (acc : KV),
    (∀ p ∈ acc, p.1 = bmKey A p.2.id) →
    sndList (pRun A ops acc) = ledgerRun A ops (sndList acc) := by
  intro ops
  induction ops with
  | nil => intro acc _; rfl
  | cons op rest ih =>
    intro acc hinv
    show sndList (pRun A rest (pStep A acc op))
      = ledgerRun A rest (ledgerStep A (sndList acc) op)
    rw [ih (pStep A acc op) (pStep_key_inv A op acc hinv)]
    congr 1
    cases op with
    | create u url title fid now =>
      by_cases h : u = A
      · simp only [pStep, ledgerStep, if_pos h]
        rw [show sndList (acc.filter (fun p => p.1 != bmKey A fid)
              ++ [(bmKey A fid, ⟨fid, url, title, u, now⟩)])
            = sndList (acc.filter (fun p => p.1 != bmKey A fid))
              ++ [(⟨fid, url, title, u, now⟩ : Bookmark)] from by
          simp [sndList]]
        rw [map_snd_filter_key A fid acc hinv]
      · simp only [pStep, ledgerStep, if_neg h]
    | delete u bid =>
      by_cases h : u = A
      · simp only [pStep, ledgerStep, if_pos h]
        exact map_snd_filter_key A bid acc hinv
      · simp only [pStep, ledgerStep, if_neg h]

theorem ledgerRun_userId (A : String) : ∀ (ops : List Op) (acc : List Bookmark),
    (∀ b ∈ acc, b.userId = A) → ∀ b ∈ ledgerRun A ops acc, b.userId = A := by
  intro ops
  induction ops with
  | nil => intro acc h; exact h
  | cons op rest ih =>
    intro acc h
    refine ih (ledgerStep A acc op) ?_
    intro b hb
    cases op with
    | create u url title fid now =>
      simp only [ledgerStep] at hb
      by_cases hc : u = A
      · rw [if_pos hc] at hb
        rcases List.mem_append.mp hb with hb1 | hb1
        · exact h b (List.mem_filter.mp hb1).1
        · rw [List.mem_singleton] at hb1; subst hb1; exact hc
      · rw [if_neg hc] at hb; exact h b hb
    | delete u bid =>
      simp only [ledgerStep] at hb
      by_cases hc : u = A
      · rw [if_pos hc] at hb; exact h b (List.mem_filter.mp hb).1
      · rw [if_neg hc] at hb; exact h b hb

theorem getBookmarksHandler_auth_ok (auth : String → Option String)
    (header : Option String) (tok uid : String) (h1 : extractToken header = some tok)
    (h2 : auth tok = some uid) (h3 : uid ≠ "") (st : KV) :
    getBookmarksHandler auth header st
      = ((200, Body.bookmarkList (sndList (getByPre (listPre uid) st))), st) := by
  simp [getBookmarksHandler, h1, h2, h3, sndList]

theorem createBookmarkHandler_auth_ok (auth : String → Option String)
    (header : Option String) (tok uid : String) (h1 : extractToken header = some tok)
    (h2 : auth tok = some uid) (h3 : uid ≠ "") (url title : String)
    (bodyId bodyUserId : Option String) (fid now : String) (st : KV)
    (hurl : url ≠ "") (htitle : title ≠ "") :
    createBookmarkHandler auth header (some url) (some title) bodyId bodyUserId fid now st
      = ((200, Body.bookmarkCreated ⟨fid, url, title, uid, now⟩),
          kvSet (bmKey uid fid) ⟨fid, url, title, uid, now⟩ st) := by
  simp [createBookmarkHandler, h1, h2, h3, truthy, hurl, htitle]

theorem deleteBookmarkHandler_auth_ok (auth : String → Option String)
    (header : Option String) (tok uid : String) (h1 : extractToken header = some tok)
    (h2 : auth tok = some uid) (h3 : uid ≠ "") (bid : String) (st : KV) :
    deleteBookmarkHandler auth header bid st
      = ((200, Body.deleteSuccess), kvDel (bmKey uid bid) st) := by
  simp [deleteBookmarkHandler, h1, h2, h3]

theorem kvGet_kvSet_self (k : String) (v : Bookmark) (st : KV) :
    kvGet k (kvSet k v st) = some v := by
  unfold kvGet kvSet
  rw [List.find?_append]
  have hnone : (st.filter (fun p => p.1 != k)).find? (fun p => p.1 == k) = none := by
    rw [List.find?_eq_none]
    intro p hp
    have h2 := (List.mem_filter.mp hp).2
    simp only [bne_iff_ne, ne_eq] at h2
    simp [h2]
  rw [hnone]
  simp

/-- C1 (amended): for every interleaving of well-formed create and delete
operations across authenticated users whose identifiers contain no ':'
character, the List operation for such a caller returns exactly the bookmarks
previously created and not deleted by that caller, every one carrying the
caller's own user id — never another user's bookmark. -/
theorem list_returns_exactly_callers_bookmarks (A : String)
    (hA : colonFree A = true) (hA0 : A ≠ "") (ops : List Op)
    (hops : ∀ op ∈ ops, wfOp op = true ∧ colonFree (Op.uid op) = true) :
    (getBookmarksHandler (authOf A) (some "Bearer tok") (runOps ops [])).1
        = (200, Body.bookmarkList (ledgerRun A ops []))
      ∧ ∀ b ∈ ledgerRun A ops [], b.userId = A := by
  have hview : getByPre (listPre A) (runOps ops []) = pRun A ops [] :=
    runOps_view A hA ops hops []
  have hsnd : sndList (pRun A ops []) = ledgerRun A ops [] :=
    pRun_sndList A ops [] (fun p hp => absurd hp (List.not_mem_nil p))
  constructor
  · rw [getBookmarksHandler_auth_ok (authOf A) (some "Bearer tok") "tok" A
      extractToken_bearer (by simp [authOf]) hA0 (runOps ops [])]
    show (200, Body.bookmarkList (sndList (getByPre (listPre A) (runOps ops []))))
      = (200, Body.bookmarkList (ledgerRun A ops []))
    rw [hview, hsnd]
  · exact ledgerRun_userId A ops [] (fun b hb => absurd hb (List.not_mem_nil b))

/-- C1 counterexample: with the distinct authenticated users "u" and "u:v",
user "u:v" creates one bookmark and user "u" creates and deletes nothing, yet
the List operation for caller "u" returns that bookmark, whose owner is not
"u" — so List does not return exactly the caller's own bookmarks. -/
theorem list_cross_user_leak :
    (getBookmarksHandler (authOf "u") (some "Bearer tok")
        (runOps [Op.create "u:v" "https://y" "Y" "i1" "t1"] [])).1
      = (200, Body.bookmarkList [⟨"i1", "https://y", "Y", "u:v", "t1"⟩])
    ∧ (⟨"i1", "https://y", "Y", "u:v", "t1"⟩ : Bookmark).userId ≠ "u" := by
  decide

theorem list_returns_exactly_callers_bookmarks_witness :
    (getBookmarksHandler (authOf "alice") (some "Bearer tok")
        (runOps [Op.create "alice" "https://x" "X" "i1" "t1",
          Op.create "bob" "https://y" "Y" "i2" "t2",
          Op.delete "bob" "i2", Op.delete "alice" "i9"] [])).1
      = (200, Body.bookmarkList
          (ledgerRun "alice" [Op.create "alice" "https://x" "X" "i1" "t1",
            Op.create "bob" "https://y" "Y" "i2" "t2",
            Op.delete "bob" "i2", Op.delete "alice" "i9"] [])) :=
  (list_returns_exactly_callers_bookmarks "alice" (by decide) (by decide)
    [Op.create "alice" "https://x" "X" "i1" "t1",
      Op.create "bob" "https://y" "Y" "i2" "t2",
      Op.delete "bob" "i2", Op.delete "alice" "i9"] (by decide)).1

/-- C2: for every valid create request (authenticated caller, non-empty url
and title), the returned bookmark's userId equals the authenticated caller's
id regardless of any id or owner field in the client body, and the returned
record is exactly the record written to storage under its key. -/
theorem create_owner_is_caller (auth : String → Option String)
    (header : Option String) (tok uid : String) (h1 : extractToken header = some tok)
    (h2 : auth tok = some uid) (h3 : uid ≠ "") (url title : String)
    (hurl : url ≠ "") (htitle : title ≠ "") (bodyId bodyUserId : Option String)
    (fid now : String) (st : KV) :
    (createBookmarkHandler auth header (some url) (some title) bodyId bodyUserId fid now st).1
        = (200, Body.bookmarkCreated ⟨fid, url, title, uid, now⟩)
      ∧ (⟨fid, url, title, uid, now⟩ : Bookmark).userId = uid
      ∧ (createBookmarkHandler auth header (some url) (some title) bodyId bodyUserId fid now st).2
        = kvSet (bmKey uid fid) ⟨fid, url, title, uid, now⟩ st
      ∧ kvGet (bmKey uid fid)
          ((createBookmarkHandler auth header (some url) (some title) bodyId bodyUserId fid now st).2)
        = some ⟨fid, url, title, uid, now⟩ := by
  have hc := createBookmarkHandler_auth_ok auth header tok uid h1 h2 h3 url title
    bodyId bodyUserId fid now st hurl htitle
  refine ⟨by rw [hc], rfl, by rw [hc], ?_⟩
  rw [hc]
  exact kvGet_kvSet_self _ _ _

theorem create_owner_is_caller_witness :
    (createBookmarkHandler (authOf "alice") (some "Bearer tok")
        (some "https://x") (some "X") (some "evil-id") (some "mallory") "i1" "t1" []).1
      = (200, Body.bookmarkCreated ⟨"i1", "https://x", "X", "alice", "t1"⟩) :=
  (create_owner_is_caller (authOf "alice") (some "Bearer tok") "tok" "alice"
    (by decide) (by simp [authOf]) (by decide) "https://x" "X" (by decide) (by decide)
    (some "evil-id") (some "mallory") "i1" "t1" []).1

/-- C3 (amended): for any two distinct authenticated users A and B whose
identifiers contain no ':' character, a Delete request authenticated as A,
with any client-supplied path parameter, never removes a record stored under
B's key range, and B's subsequent List result is unchanged. -/
theorem delete_cannot_touch_other_user (A B : String) (hA : colonFree A = true)
    (hB : colonFree B = true) (hAB : A ≠ B)
    (auth : String → Option String) (header : Option String) (tok : String)
    (h1 : extractToken header = some tok) (h2 : auth tok = some A) (h3 : A ≠ "")
    (auth2 : String → Option String) (header2 : Option String) (tok2 : String)
    (h4 : extractToken header2 = some tok2) (h5 : auth2 tok2 = some B) (h6 : B ≠ "")
    (bid : String) (st : KV) :
    getByPre (listPre B) ((deleteBookmarkHandler auth header bid st).2)
        = getByPre (listPre B) st
      ∧ (getBookmarksHandler auth2 header2 ((deleteBookmarkHandler auth header bid st).2)).1
        = (getBookmarksHandler auth2 header2 st).1 := by
  have hd := deleteBookmarkHandler_auth_ok auth header tok A h1 h2 h3 bid st
  have hmain : getByPre (listPre B) (kvDel (bmKey A bid) st) = getByPre (listPre B) st :=
    getByPre_kvDel_other B A bid hB hA (fun h => hAB h.symm) st
  have hsnd : (deleteBookmarkHandler auth header bid st).2 = kvDel (bmKey A bid) st := by
    rw [hd]
  constructor
  · rw [hsnd]; exact hmain
  · have hg1 := getBookmarksHandler_auth_ok auth2 header2 tok2 B h4 h5 h6
      (kvDel (bmKey A bid) st)
    have hg2 := getBookmarksHandler_auth_ok auth2 header2 tok2 B h4 h5 h6 st
    rw [hsnd, hg1, hg2, hmain]

/-- C3 counterexample: users "u" and "u:v" are distinct, yet a Delete
authenticated as "u" with path parameter "v:x" removes the record that user
"u:v" stored under its own key range, and "u:v"'s subsequent List drops from
one bookmark to none. -/
theorem delete_cross_user_removal :
    (deleteBookmarkHandler (authOf "u") (some "Bearer tok") "v:x"
        [(bmKey "u:v" "x", ⟨"x", "h", "T", "u:v", "t"⟩)]).2 = []
    ∧ getByPre (listPre "u:v") [(bmKey "u:v" "x", ⟨"x", "h", "T", "u:v", "t"⟩)]
        = [(bmKey "u:v" "x", ⟨"x", "h", "T", "u:v", "t"⟩)]
    ∧ (getBookmarksHandler (authOf "u:v") (some "Bearer tok")
        ((deleteBookmarkHandler (authOf "u") (some "Bearer tok") "v:x"
          [(bmKey "u:v" "x", ⟨"x", "h", "T", "u:v", "t"⟩)]).2)).1
      = (200, Body.bookmarkList []) := by
  decide

theorem delete_cannot_touch_other_user_witness :
    getByPre (listPre "b") ((deleteBookmarkHandler (authOf "a") (some "Bearer tok") "x"
        [(bmKey "b" "x", ⟨"x", "h", "T", "b", "t"⟩)]).2)
      = getByPre (listPre "b") [(bmKey "b" "x", ⟨"x", "h", "T", "b", "t"⟩)] :=
  (delete_cannot_touch_other_user "a" "b" (by decide) (by decide) (by decide)
    (authOf "a") (some "Bearer tok") "tok" (by decide) (by simp [authOf]) (by decide)
    (authOf "b") (some "Bearer tok") "tok" (by decide) (by simp [authOf]) (by decide)
    "x" [(bmKey "b" "x", ⟨"x", "h", "T", "b", "t"⟩)]).1

/-- C4: a request whose bearer credential is missing or fails verification
(no user, or an empty user id) gets a 401 from each of the three bookmark
operations, and the store is returned unchanged. -/
theorem unauthorized_leaves_store_unchanged (auth : String → Option String)
    (header : Option String)
    (hrej : ∀ t, extractToken header = some t → auth t = none ∨ auth t = some "")
    (st : KV) (url? title? bodyId bodyUserId : Option String) (fid now bid : String) :
    ((getBookmarksHandler auth header st).1.1 = 401
      ∧ (getBookmarksHandler auth header st).2 = st)
    ∧ ((createBookmarkHandler auth header url? title? bodyId bodyUserId fid now st).1.1 = 401
      ∧ (createBookmarkHandler auth header url? title? bodyId bodyUserId fid now st).2 = st)
    ∧ ((deleteBookmarkHandler auth header bid st).1.1 = 401
      ∧ (deleteBookmarkHandler auth header bid st).2 = st) := by
  cases hE : extractToken header with
  | none =>
    simp [getBookmarksHandler, createBookmarkHandler, deleteBookmarkHandler, hE]
  | some t =>
    rcases hrej t hE with h1 | h1 <;>
      simp [getBookmarksHandler, createBookmarkHandler, deleteBookmarkHandler, hE, h1]

theorem unauthorized_leaves_store_unchanged_witness :
    (getBookmarksHandler (fun _ => none) none
        [(bmKey "a" "i", ⟨"i", "h", "T", "a", "t"⟩)]).1.1 = 401 :=
  (unauthorized_leaves_store_unchanged (fun _ => none) none
    (fun _ h => Option.noConfusion h)
    [(bmKey "a" "i", ⟨"i", "h", "T", "a", "t"⟩)]
    none none none none "f" "n" "b").1.1

/-- C5: Delete is idempotent: for an authenticated caller and any bookmark id
(present or not), both the first and the second identical Delete request
return success, and the store after the second delete equals the store after
the first. -/
theorem delete_idempotent (auth : String → Option String) (header : Option String)
    (tok uid : String) (h1 : extractToken header = some tok)
    (h2 : auth tok = some uid) (h3 : uid ≠ "") (bid : String) (st : KV) :
    (deleteBookmarkHandler auth header bid st).1 = (200, Body.deleteSuccess)
    ∧ (deleteBookmarkHandler auth header bid
        ((deleteBookmarkHandler auth header bid st).2)).1 = (200, Body.deleteSuccess)
    ∧ (deleteBookmarkHandler auth header bid
        ((deleteBookmarkHandler auth header bid st).2)).2
      = (deleteBookmarkHandler auth header bid st).2 := by
  have hd := deleteBookmarkHandler_auth_ok auth header tok uid h1 h2 h3 bid st
  have hd2 := deleteBookmarkHandler_auth_ok auth header tok uid h1 h2 h3 bid
    (kvDel (bmKey uid bid) st)
  have hsnd : (deleteBookmarkHandler auth header bid st).2 = kvDel (bmKey uid bid) st := by
    rw [hd]
  have hidem : kvDel (bmKey uid bid) (kvDel (bmKey uid bid) st) = kvDel (bmKey uid bid) st := by
    unfold kvDel
    rw [List.filter_filter]
    exact List.filter_congr (fun a _ => Bool.and_self _)
  refine ⟨by rw [hd], ?_, ?_⟩
  · rw [hsnd, hd2]
  · rw [hsnd, hd2]
    exact hidem

theorem delete_idempotent_witness :
    (deleteBookmarkHandler (authOf "a") (some "Bearer tok") "nonexistent" []).1
      = (200, Body.deleteSuccess) :=
  (delete_idempotent (authOf "a") (some "Bearer tok") "tok" "a"
    (by decide) (by simp [authOf]) (by decide) "nonexistent" []).1

/-- C6: an authenticated create whose body is missing url or title, or has an
empty string for either, returns 400 and writes nothing to storage. -/
theorem create_rejects_missing_fields (auth : String → Option String)
    (header : Option String) (tok uid : String) (h1 : extractToken header = some tok)
    (h2 : auth tok = some uid) (h3 : uid ≠ "")
    (url? title? bodyId bodyUserId : Option String) (fid now : String) (st : KV)
    (hbad : truthy url? = false ∨ truthy title? = false) :
    (createBookmarkHandler auth header url? title? bodyId bodyUserId fid now st).1
        = (400, Body.errRequired)
      ∧ (createBookmarkHandler auth header url? title? bodyId bodyUserId fid now st).2 = st := by
  rcases hbad with h | h <;>
    simp [createBookmarkHandler, h1, h2, h3, h]

theorem create_rejects_missing_fields_witness :
    (createBookmarkHandler (authOf "a") (some "Bearer tok")
        (some "https://x") (some "") none none "i" "t" []).1 = (400, Body.errRequired) :=
  (create_rejects_missing_fields (authOf "a") (some "Bearer tok") "tok" "a"
    (by decide) (by simp [authOf]) (by decide)
    (some "https://x") (some "") none none "i" "t" [] (Or.inr (by decide))).1

theorem runOps_key_inv : ∀ (ops : List Op) (st : KV),
    (∀ p ∈ st, p.1 = bmKey p.2.userId p.2.id) →
    ∀ p ∈ runOps ops st, p.1 = bmKey p.2.userId p.2.id := by
  intro ops
  induction ops with
  | nil => intro st h; exact h
  | cons op rest ih =>
    intro st h
    refine ih (applyOp op st) ?_
    intro p hp
    cases op with
    | create u url title fid now =>
      by_cases hu : u = ""
      · rw [applyOp_create_noop u url title fid now (Or.inl hu)] at hp
        exact h p hp
      · by_cases hurl : url = ""
        · rw [applyOp_create_noop u url title fid now (Or.inr (Or.inl hurl))] at hp
          exact h p hp
        · by_cases htitle : title = ""
          · rw [applyOp_create_noop u url title fid now (Or.inr (Or.inr htitle))] at hp
            exact h p hp
          · rw [applyOp_create_eq u url title fid now hu hurl htitle] at hp
            unfold kvSet at hp
            rcases List.mem_append.mp hp with hp1 | hp1
            · exact h p (List.mem_filter.mp hp1).1
            · rw [List.mem_singleton] at hp1; subst hp1; rfl
    | delete u bid =>
      by_cases hu : u = ""
      · rw [applyOp_delete_noop u bid hu] at hp; exact h p hp
      · rw [applyOp_delete_eq u bid hu] at hp
        exact h p (List.mem_filter.mp hp).1

/-- C8: after any sequence of operations from the empty store, every stored
key/record pair's key is exactly `bookmarks:` + the record's own userId + `:`
+ the record's own id. -/
theorem stored_key_matches_record (ops : List Op) (p : String × Bookmark)
    (hp : p ∈ runOps ops []) : p.1 = bmKey p.2.userId p.2.id :=
  runOps_key_inv ops [] (fun q hq => absurd hq (List.not_mem_nil q)) p hp

theorem stored_key_matches_record_witness :
    ("bookmarks:a:i1", (⟨"i1", "h", "T", "a", "t"⟩ : Bookmark)).1
      = bmKey (⟨"i1", "h", "T", "a", "t"⟩ : Bookmark).userId
          (⟨"i1", "h", "T", "a", "t"⟩ : Bookmark).id :=
  stored_key_matches_record [Op.create "a" "h" "T" "i1" "t"]
    ("bookmarks:a:i1", ⟨"i1", "h", "T", "a", "t"⟩) (by decide)

/-- C9: every GET /bookmarks outcome is either a 401 unauthorized error or
the 200 success result carrying a bookmark list; no other failure exists. -/
theorem getBookmarks_fails_only_unauthorized (auth : String → Option String)
    (header : Option String) (st : KV) :
    ((getBookmarksHandler auth header st).1.1 = 401
      ∧ ((getBookmarksHandler auth header st).1.2 = Body.errNoToken
        ∨ (getBookmarksHandler auth header st).1.2 = Body.errUnauthorized))
    ∨ ∃ bs, (getBookmarksHandler auth header st).1 = (200, Body.bookmarkList bs) := by
  cases hE : extractToken header with
  | none => simp [getBookmarksHandler, hE]
  | some t =>
    cases hA : auth t with
    | none => simp [getBookmarksHandler, hE, hA]
    | some uid =>
      by_cases h : uid = "" <;> simp [getBookmarksHandler, hE, hA, h]

end BookmarkServer

namespace BookmarkClient

open BookmarkServer (Bookmark)

/-- The client's BookmarkEvent interface: a type tag (a plain string in the
code), an optional bookmark payload, an optional bookmark id, and the
originating user's id. -/
structure BookmarkEvent where
  type : String
  bookmark : Option Bookmark
  bookmarkId : Option String
  userId : String
deriving Repr, DecidableEq

/-- The broadcast subscription callback of setupRealtimeSubscription applied
to the local bookmark list: drop events of other users; on a truthy "added"
payload prepend the bookmark unless its id is already present; on a truthy
"deleted" id remove matching bookmarks; otherwise leave the list unchanged
(an empty-string bookmarkId is falsy in the code, hence also a no-op). -/
def applyEvent (sessionUid : String) (ev : BookmarkEvent) (prev : List Bookmark) :
    List Bookmark :=
  if ev.userId != sessionUid then prev
  else
    match ev.type == "added", ev.bookmark with
    | true, some bm =>
      if prev.any (fun b => b.id == bm.id) then prev else bm :: prev
    | _, _ =>
      match ev.type == "deleted", ev.bookmarkId with
      | true, some bid =>
        if bid == "" then prev else prev.filter (fun b => b.id != bid)
      | _, _ => prev

/-- C7: applying an inbound Added event for the session's own user is a no-op
when the bookmark's id is already in the list, prepends the bookmark when it
is absent, and applying the same Added event twice equals applying it once. -/
theorem added_event_dedup_or_prepend (uid : String) (bm : Bookmark)
    (oid : Option String) (prev : List Bookmark) :
    (prev.any (fun b => b.id == bm.id) = true →
        applyEvent uid ⟨"added", some bm, oid, uid⟩ prev = prev)
    ∧ (prev.any (fun b => b.id == bm.id) = false →
        applyEvent uid ⟨"added", some bm, oid, uid⟩ prev = bm :: prev)
    ∧ applyEvent uid ⟨"added", some bm, oid, uid⟩
        (applyEvent uid ⟨"added", some bm, oid, uid⟩ prev)
      = applyEvent uid ⟨"added", some bm, oid, uid⟩ prev := by
  have hself : ((⟨"added", some bm, oid, uid⟩ : BookmarkEvent).userId != uid) = false := by
    simp
  refine ⟨fun h => ?_, fun h => ?_, ?_⟩
  · simp [applyEvent, h]
  · simp [applyEvent, h]
  · by_cases h : prev.any (fun b => b.id == bm.id) = true
    · simp [applyEvent, h]
    · rw [Bool.not_eq_true] at h
      simp only [applyEvent, hself, Bool.false_eq_true, if_false, beq_self_eq_true]
      simp only [h, Bool.false_eq_true, if_false]
      have hhead : ((bm :: prev).any (fun b => b.id == bm.id)) = true := by
        simp [List.any_cons]
      simp [hhead]

theorem added_event_dedup_or_prepend_witness :
    applyEvent "u" ⟨"added", some ⟨"i", "h", "T", "u", "t"⟩, none, "u"⟩ []
      = [⟨"i", "h", "T", "u", "t"⟩] :=
  (added_event_dedup_or_prepend "u" ⟨"i", "h", "T", "u", "t"⟩ none []).2.1 (by decide)

/-- C10: an inbound broadcast event that is not a well-formed sync event for
the session's user — wrong userId, a type other than "added"/"deleted", an
"added" event with no bookmark payload, or a "deleted" event with no
bookmarkId — leaves the local bookmark list unchanged. -/
theorem malformed_event_noop (uid : String) (ev : BookmarkEvent)
    (prev : List Bookmark)
    (h : ev.userId ≠ uid
      ∨ (ev.type ≠ "added" ∧ ev.type ≠ "deleted")
      ∨ (ev.type = "added" ∧ ev.bookmark = none)
      ∨ (ev.type = "deleted" ∧ ev.bookmarkId = none)) :
    applyEvent uid ev prev = prev := by
  obtain ⟨t, b, bid, u⟩ := ev
  rcases h with h | ⟨h1, h2⟩ | ⟨h1, h2⟩ | ⟨h1, h2⟩
  · simp only [] at h
    simp [applyEvent, h]
  · simp only [] at h1 h2
    by_cases hu : u = uid
    · cases b <;> cases bid <;> simp [applyEvent, hu, h1, h2]
    · simp [applyEvent, hu]
  · simp only [] at h1 h2
    subst h1; subst h2
    by_cases hu : u = uid
    · cases bid <;> simp [applyEvent, hu]
    · simp [applyEvent, hu]
  · simp only [] at h1 h2
    subst h1; subst h2
    by_cases hu : u = uid
    · cases b <;> simp [applyEvent, hu]
    · simp [applyEvent, hu]

theorem malformed_event_noop_witness :
    applyEvent "u" ⟨"zap", none, none, "u"⟩ [⟨"i", "h", "T", "u", "t"⟩]
      = [⟨"i", "h", "T", "u", "t"⟩] :=
  malformed_event_noop "u" ⟨"zap", none, none, "u"⟩ [⟨"i", "h", "T", "u", "t"⟩]
    (Or.inr (Or.inl (by decide)))

end BookmarkClient
